import Mathlib

/-!
Verification of the LLM chat orchestration core of the `hq` repository.

The development shallowly embeds the Rust sources:
  * `src/openai/core.rs`  — message model, buffered completion, streaming decoder
  * `src/openai/chat.rs`  — tool-call dispatcher and free-standing chat loop
  * `src/ai/chat/core.rs` — the `Chat` session type with `next_msg` and persistence

Network I/O is modelled by oracles: a buffered completion call consumes the next
element of a list of prepared outcomes, the streaming decoder consumes a list of
already-delimited server-sent events, tool invocations are pure functions
`String -> Except String String`, and the persistence store is a pair of
prepared outcomes for `get_or_create_session` and the successive
`insert_chat_message` calls.  Rust panics (`expect`, `panic!`) are modelled as
`Except.error` values whose message starts with the panic text.
-/

namespace HQ

/-! ## Message model (src/openai/core.rs, lines 11-92) -/

/-- `Role` from src/openai/core.rs. -/
inductive Role where
  | System
  | Assistant
  | User
  | Tool
deriving DecidableEq

/-- `FunctionCallFn` from src/openai/core.rs: the name plus opaque argument
text of one function call. -/
structure FunctionCallFn where
  arguments : String
  name : String
deriving DecidableEq

/-- `FunctionCall` from src/openai/core.rs. -/
structure FunctionCall where
  function : FunctionCallFn
  id : String
  type : String
deriving DecidableEq

/-- `Message` from src/openai/core.rs.  All optional fields are `Option`,
mirroring the Rust struct; a `none` field is omitted from serialization. -/
structure Message where
  role : Role
  refusal : Option Bool
  content : Option String
  tool_call_id : Option String
  tool_calls : Option (List FunctionCall)
deriving DecidableEq

/-- `Message::new` (src/openai/core.rs lines 65-73). -/
def Message.new (role : Role) (content : String) : Message :=
  { role := role
    refusal := none
    content := some content
    tool_call_id := none
    tool_calls := none }

/-- `Message::new_tool_call_request` (src/openai/core.rs lines 74-82). -/
def Message.new_tool_call_request (tool_calls : List FunctionCall) : Message :=
  { role := Role.Assistant
    refusal := none
    content := none
    tool_call_id := none
    tool_calls := some tool_calls }

/-- `Message::new_tool_call_response` (src/openai/core.rs lines 83-91). -/
def Message.new_tool_call_response (content : String) (tool_call_id : String) : Message :=
  { role := Role.Tool
    refusal := none
    content := some content
    tool_call_id := some tool_call_id
    tool_calls := none }

/-! ## Streaming decoder data (src/openai/core.rs, lines 172-253) -/

/-- `ToolCallChunk` from src/openai/core.rs: the two shapes of a streamed
tool-call sub-delta.  `Init` carries id, position index, function name, an
initial argument fragment and the type tag; `ArgsDelta` carries only a further
argument fragment for an already-seen index. -/
inductive ToolCallChunk where
  | Init (id : String) (index : Nat) (name : String) (arguments : String) (type : String)
  | ArgsDelta (index : Nat) (arguments : String) (type : String)
deriving DecidableEq

/-- `Delta` from src/openai/core.rs: the four shapes of a streamed frame. -/
inductive Delta where
  | Content (content : String)
  | Reasoning (reasoning : String)
  | ToolCall (tool_calls : List ToolCallChunk)
  | Stop
deriving DecidableEq

/-- `CompletionChunkChoice` from src/openai/core.rs restricted to the two
fields the decoder reads: the delta and the optional finish reason. -/
structure ChunkChoice where
  delta : Delta
  finish_reason : Option String
deriving DecidableEq

/-- `ToolCallFinal` from src/openai/core.rs: one fully accumulated tool call. -/
structure ToolCallFinal where
  id : String
  index : Nat
  name : String
  arguments : String
  type : String
deriving DecidableEq

/-! ## Tool-call accumulation map

The Rust code accumulates tool calls in a `HashMap<usize, ToolCallFinal>`.
The model represents the map as a list of entries whose `index` fields are the
keys (kept unique, see `toolIndices_nodup_runStream`).  `HashMap::insert`
replaces the binding when the key is present and adds it otherwise;
`entry(..).and_modify(..)` updates the binding when present and does nothing
otherwise.  Iteration order of a Rust `HashMap` is unspecified; this model
realizes one admissible order, namely insertion order. -/

/-- Lookup by position index in the accumulation map. -/
def lookupIdx (m : List ToolCallFinal) (i : Nat) : Option ToolCallFinal :=
  m.find? (fun e => e.index == i)

/-- `HashMap::insert`: replace the entry with the same index when present,
otherwise add the new entry. -/
def mapInsert (m : List ToolCallFinal) (tc : ToolCallFinal) : List ToolCallFinal :=
  if m.any (fun e => e.index == tc.index) then
    m.map (fun e => if e.index == tc.index then tc else e)
  else
    m ++ [tc]

/-- `HashMap::entry(i).and_modify(f)`: update the entry with index `i` when
present, otherwise leave the map unchanged. -/
def mapModify (m : List ToolCallFinal) (i : Nat) (f : ToolCallFinal → ToolCallFinal) :
    List ToolCallFinal :=
  m.map (fun e => if e.index == i then f e else e)

/-- One iteration of the `for tool_call_delta in tool_call_deltas` loop in
`completion_stream` (src/openai/core.rs lines 357-385). -/
def applyChunk (m : List ToolCallFinal) : ToolCallChunk → List ToolCallFinal
  | ToolCallChunk.Init id index name arguments ty =>
      mapInsert m { id := id, index := index, name := name, arguments := arguments, type := ty }
  | ToolCallChunk.ArgsDelta index arguments _ =>
      mapModify m index (fun v => { v with arguments := v.arguments ++ arguments })

/-- The whole `for` loop over one frame's tool-call sub-deltas. -/
def applyChunks (m : List ToolCallFinal) (cs : List ToolCallChunk) : List ToolCallFinal :=
  cs.foldl applyChunk m

/-! ## Streaming decode loop (src/openai/core.rs, lines 255-409) -/

/-- The mutable state of the decode loop in `completion_stream`: the content
buffer, the reasoning buffer and the tool-call accumulation map. -/
structure StreamState where
  content_buf : String
  reasoning_buf : String
  tool_calls : List ToolCallFinal
deriving DecidableEq

/-- The decode loop starts with empty buffers and an empty map. -/
def initState : StreamState :=
  { content_buf := "", reasoning_buf := "", tool_calls := [] }

/-- Processing of one parsed frame (the `match &choice.delta` in
src/openai/core.rs lines 337-390).  Returns the new state and whether the
decode loop terminates (`break 'outer`).  A frame whose `finish_reason` is
present has its delta text discarded and terminates; a `Stop` delta terminates
unconditionally. -/
def stepChoice (st : StreamState) (c : ChunkChoice) : StreamState × Bool :=
  match c.delta with
  | Delta.Reasoning r =>
      if c.finish_reason.isSome then (st, true)
      else ({ st with reasoning_buf := st.reasoning_buf ++ r }, false)
  | Delta.Content s =>
      if c.finish_reason.isSome then (st, true)
      else ({ st with content_buf := st.content_buf ++ s }, false)
  | Delta.ToolCall cs =>
      if c.finish_reason.isSome then (st, true)
      else ({ st with tool_calls := applyChunks st.tool_calls cs }, false)
  | Delta.Stop => (st, true)

/-- One delimited server-sent event after buffer reconstruction, as consumed
by the decode loop: the literal `[DONE]` terminator, a frame whose JSON fails
to parse (aborts the stream with an error), or a parsed frame, identified with
its first choice (the code panics when `choices` is empty, a case outside this
model).  Events that the loop skips (blank events, events without a `data:`
prefix, empty payloads) change no state and are omitted. -/
inductive SSEvent where
  | done
  | malformed (raw : String)
  | chunk (choice : ChunkChoice)
deriving DecidableEq

/-- The decode loop of `completion_stream` over the delimited events, in
arrival order.  Stops at `[DONE]`, at a parse failure, or when `stepChoice`
terminates; a stream that simply ends behaves like the outer `while` running
out of chunks. -/
def runStream (st : StreamState) : List SSEvent → Except String StreamState
  | [] => Except.ok st
  | SSEvent.done :: _ => Except.ok st
  | SSEvent.malformed raw :: _ =>
      Except.error ("Parsing completion chunk failed for " ++ raw)
  | SSEvent.chunk c :: rest =>
      if (stepChoice st c).2 then Except.ok (stepChoice st c).1
      else runStream (stepChoice st c).1 rest

/-- The result value assembled by `completion_stream`: either a buffered-style
tool-calls value or a content value.  The constructors are disjoint, so a
tool-calls result carries no content anywhere. -/
inductive StreamResult where
  | content (text : String)
  | toolCalls (calls : List ToolCallFinal)
deriving DecidableEq

/-- Result assembly at the end of `completion_stream` (src/openai/core.rs
lines 394-408): when the accumulation map is non-empty, emit its values
(`HashMap::values`, modelled in insertion order); otherwise emit the content
buffer.  The reasoning buffer is never part of the result. -/
def assemble (st : StreamState) : StreamResult :=
  if st.tool_calls.isEmpty then StreamResult.content st.content_buf
  else StreamResult.toolCalls st.tool_calls

/-- `completion_stream` (src/openai/core.rs lines 255-409) as a function of
the delimited event sequence. -/
def completion_stream (events : List SSEvent) : Except String StreamResult :=
  (runStream initState events).map assemble

/-! ## Helper views used to state the streaming claims -/

/-- A frame terminates the decode loop exactly when its `finish_reason` is
present or its delta is `Stop`. -/
def terminatesChoice (c : ChunkChoice) : Bool :=
  c.finish_reason.isSome ||
    (match c.delta with
     | Delta.Stop => true
     | _ => false)

/-- The content text of a frame, when its delta is a content delta. -/
def contentText (c : ChunkChoice) : Option String :=
  match c.delta with
  | Delta.Content s => some s
  | _ => none

/-- A frame whose delta is a content delta or a stop delta. -/
def contentOrStop (c : ChunkChoice) : Bool :=
  match c.delta with
  | Delta.Content _ => true
  | Delta.Stop => true
  | _ => false

/-- Ordered concatenation of a list of text fragments. -/
def concatTexts : List String → String
  | [] => ""
  | s :: rest => s ++ concatTexts rest

/-- Whether a sub-delta is an `Init` for position index `i`. -/
def isInitFor (i : Nat) : ToolCallChunk → Bool
  | ToolCallChunk.Init _ j _ _ _ => j == i
  | ToolCallChunk.ArgsDelta _ _ _ => false

/-- The argument fragment of an `ArgsDelta` for position index `i`. -/
def argsFor (i : Nat) : ToolCallChunk → Option String
  | ToolCallChunk.ArgsDelta j a _ => if j == i then some a else none
  | ToolCallChunk.Init _ _ _ _ _ => none

/-- The position indices bound in the accumulation map. -/
def toolIndices (m : List ToolCallFinal) : List Nat :=
  m.map (fun e => e.index)

/-! ## Buffered completion (src/openai/core.rs, lines 143-170)

`completion` performs one HTTP exchange: `send().await?` propagates a
transport failure, and `.json().await?` propagates a body-parse failure.  The
HTTP status code is never inspected (there is no `error_for_status` call), so
any response whose body parses as JSON is returned as a success.  The model
abstracts the exchange into an outcome value and the parsed body into the
response view `Resp` below. -/

/-- The raw tool-call request object read out of a response JSON value by the
dispatcher: `as_str()` on the `id`, `function.arguments` and `function.name`
paths, each `none` when the field is absent or not a string. -/
structure ToolCallValue where
  id : Option String
  name : Option String
  arguments : Option String
deriving DecidableEq

/-- The decision-relevant view of a completion response value: the
`choices[0].message.content` path as read by `as_str()` and the
`choices[0].message.tool_calls` path as read by `as_array()`. -/
structure Resp where
  content : Option String
  tool_calls : Option (List ToolCallValue)
deriving DecidableEq

/-- The outcome of one HTTP exchange: a transport failure (connectivity or
timeout), or a response with its status code and the result of parsing its
body as JSON. -/
inductive HttpOutcome where
  | transportFailure (e : String)
  | response (status : Nat) (body : Except String Resp)

/-- `completion` (src/openai/core.rs lines 143-170).  A transport failure and
a body-parse failure propagate via the two `?` operators; the status code is
not consulted. -/
def completion (out : HttpOutcome) : Except String Resp :=
  match out with
  | HttpOutcome.transportFailure e => Except.error e
  | HttpOutcome.response _ body => body

/-! ## Tool-call dispatcher (src/openai/chat.rs lines 10-73 and, verbatim the
same code, src/ai/chat/core.rs lines 41-104) -/

/-- A registered capability: the unique function name together with the
invocation on raw argument text.  This models one `BoxedToolCall`; the async
`call` is modelled as a pure fallible function. -/
structure Capability where
  name : String
  call : String → Except String String

/-- `handle_tool_call`: extract `id`, `arguments` and `name` (in that source
order, each a hard error when missing), resolve the capability by exact name
match, invoke it, and produce the request-echo message followed by the
response message. -/
def handle_tool_call (tools : List Capability) (tc : ToolCallValue) :
    Except String (List Message) :=
  match tc.id with
  | none => Except.error "Tool call missing ID"
  | some id =>
    match tc.arguments with
    | none => Except.error "Tool call missing arguments"
    | some args =>
      match tc.name with
      | none => Except.error "Tool call missing name"
      | some name =>
        match tools.find? (fun t => t.name == name) with
        | none => Except.error ("Received tool call that doesn't exist: " ++ name)
        | some cap =>
          match cap.call args with
          | Except.error e => Except.error e
          | Except.ok result =>
            Except.ok
              [Message.new_tool_call_request
                  [{ function := { arguments := args, name := name },
                     id := id, type := "function" }],
               Message.new_tool_call_response result id]

/-- `try_join_all` over the per-request futures: all pair lists in input
order, or a failure when any request fails.  The futures run concurrently in
the source; since each invocation is pure here, completion order does not
arise, and the surviving guarantee of `try_join_all` — results in input order,
any failure failing the whole batch — is what the model keeps. -/
def tryJoinAll (tools : List Capability) : List ToolCallValue → Except String (List (List Message))
  | [] => Except.ok []
  | tc :: tcs =>
    match handle_tool_call tools tc with
    | Except.error e => Except.error e
    | Except.ok msgs =>
      match tryJoinAll tools tcs with
      | Except.error e => Except.error e
      | Except.ok rest => Except.ok (msgs :: rest)

/-- `handle_tool_calls` (src/openai/chat.rs lines 58-73): run every request
and flatten the echo/response pairs in input order. -/
def handle_tool_calls (tools : List Capability) (tcs : List ToolCallValue) :
    Except String (List Message) :=
  match tryJoinAll tools tcs with
  | Except.error e => Except.error e
  | Except.ok results => Except.ok results.flatten

/-- The result of successfully invoking the capability named by a request:
`none` when the request is missing its name or arguments, names an
unregistered capability, or the invocation fails. -/
def invokeResult (tools : List Capability) (tc : ToolCallValue) : Option String :=
  match tc.name, tc.arguments with
  | some name, some args =>
    match tools.find? (fun t => t.name == name) with
    | none => none
    | some cap => (cap.call args).toOption
  | _, _ => none

/-- The echo/response message pair the spec prescribes for one well-formed,
successfully dispatched request; stated from the claim text, to be compared
with what `handle_tool_call` produces. -/
def specEchoResponsePair (tools : List Capability) (tc : ToolCallValue) : List Message :=
  [Message.new_tool_call_request
      [{ function := { arguments := tc.arguments.getD "", name := tc.name.getD "" },
         id := tc.id.getD "", type := "function" }],
   Message.new_tool_call_response ((invokeResult tools tc).getD "") (tc.id.getD "")]

/-! ## Chat loops (src/ai/chat/core.rs lines 159-257, src/openai/chat.rs
lines 78-172)

Each call to `completion` / `completion_stream` is modelled by consuming the
next element of an oracle list of prepared outcomes `Except String Resp`; the
`updated_history` the source threads into each new completion call only feeds
that network call, so the model keeps the accumulating message list and lets
the oracle stand for the responses.  An exhausted oracle is a model artifact
reported as its own error. -/

/-- The trailing content check shared by both loops: a response with string
content yields the final assistant message; otherwise `Chat::chat` and the
free `chat` panic while the streaming loops `bail!`. -/
def finishTurn (isStream : Bool) (resp : Resp) (acc : List Message) :
    Except String (List Message) :=
  match resp.content with
  | some c => Except.ok (acc ++ [Message.new Role.Assistant c])
  | none =>
    if isStream then Except.error "No message received"
    else Except.error "panic: No message received"

/-- One iteration of the `while let Some(tool_calls) = ... as_array()` loop
shared by `Chat::chat`, `Chat::chat_stream`, `chat` and `chat_stream`: a
response without a non-empty `tool_calls` array leaves the loop and runs the
trailing content check (`Sum.inl`); otherwise the capability set must be
configured (`expect`, a panic when not), the batch is dispatched, and the
new messages are appended (`Sum.inr`), after which the loop re-queries. -/
def oneTurn (isStream : Bool) (tools : Option (List Capability)) (acc : List Message)
    (resp : Resp) : Except String (List Message) ⊕ List Message :=
  match resp.tool_calls with
  | none => Sum.inl (finishTurn isStream resp acc)
  | some tcs =>
    if tcs.isEmpty then Sum.inl (finishTurn isStream resp acc)
    else
      match tools with
      | none => Sum.inl (Except.error "panic: Received tool call but no tools were specified")
      | some ts =>
        match handle_tool_calls ts tcs with
        | Except.error e => Sum.inl (Except.error e)
        | Except.ok msgs => Sum.inr (acc ++ msgs)

/-- The driver of the tool-call loop: given the outcome of the last `oneTurn`
and the remaining completion oracle, either return the final value or consume
the next completion outcome and run another turn. -/
def chatTurnsAux (isStream : Bool) (tools : Option (List Capability)) :
    List (Except String Resp) → (Except String (List Message) ⊕ List Message) →
    Except String (List Message)
  | _, Sum.inl r => r
  | [], Sum.inr _ => Except.error "model: completion oracle exhausted"
  | Except.error e :: _, Sum.inr _ => Except.error e
  | Except.ok resp2 :: rest2, Sum.inr acc2 =>
      chatTurnsAux isStream tools rest2 (oneTurn isStream tools acc2 resp2)

/-- The whole tool-call loop: run `oneTurn` on the current response and, while
it requests another turn, consume the next completion outcome from the
oracle. -/
def chatTurns (isStream : Bool) (tools : Option (List Capability)) (acc : List Message)
    (resp : Resp) (rest : List (Except String Resp)) : Except String (List Message) :=
  chatTurnsAux isStream tools rest (oneTurn isStream tools acc resp)

namespace Chat

/-- `Chat::chat` (src/ai/chat/core.rs lines 159-199): one buffered completion,
then the tool-call loop.  The `expect` on the capability set sits inside the
loop body, so a tool-free response never reaches it. -/
def chat (tools : Option (List Capability)) (responses : List (Except String Resp))
    (_history : List Message) : Except String (List Message) :=
  match responses with
  | [] => Except.error "model: completion oracle exhausted"
  | Except.error e :: _ => Except.error e
  | Except.ok resp :: rest => chatTurns false tools [] resp rest

/-- `Chat::chat_stream` (src/ai/chat/core.rs lines 206-257): same loop over
streaming exchanges; a response without content is a `bail!` instead of a
panic. -/
def chat_stream (tools : Option (List Capability)) (responses : List (Except String Resp))
    (_history : List Message) : Except String (List Message) :=
  match responses with
  | [] => Except.error "model: completion oracle exhausted"
  | Except.error e :: _ => Except.error e
  | Except.ok resp :: rest => chatTurns true tools [] resp rest

end Chat

namespace Openai

/-- `chat` (src/openai/chat.rs lines 78-117).  Unlike `Chat::chat`, this copy
evaluates `tools.as_ref().expect("Received tool call but no tools were
specified")` before entering the tool-call loop, so it panics whenever no
capability set was configured — even when the response carries no tool call at
all. -/
def chat (tools : Option (List Capability)) (responses : List (Except String Resp))
    (_history : List Message) : Except String (List Message) :=
  match responses with
  | [] => Except.error "model: completion oracle exhausted"
  | Except.error e :: _ => Except.error e
  | Except.ok resp :: rest =>
    match tools with
    | none => Except.error "panic: Received tool call but no tools were specified"
    | some _ => chatTurns false tools [] resp rest

end Openai

/-! ## The Chat session and next_msg (src/ai/chat/core.rs lines 111-154) -/

/-- The inner loop `next_msg` runs: `Chat::chat_stream` when the session has
its streaming flag set, `Chat::chat` otherwise. -/
def chatLoopOf (streaming : Bool) (tools : Option (List Capability))
    (responses : List (Except String Resp)) (history : List Message) :
    Except String (List Message) :=
  if streaming then Chat.chat_stream tools responses history
  else Chat.chat tools responses history

/-- Prepared outcomes of the persistence store for one `next_msg` call: the
outcome of `get_or_create_session` and the outcomes of the successive
`insert_chat_message` calls, consumed in order (exhaustion meaning further
inserts succeed). -/
structure PersistOutcomes where
  ensure : Except String Unit
  inserts : List (Except String Unit)

/-- The observable effect of one `next_msg` call: the returned value, the
session transcript after the call, and the message rows written to the store
(in insertion order). -/
structure NextMsgOut where
  result : Except String (List Message)
  transcript : List Message
  dbRows : List Message

/-- The `for m in messages.iter()` persistence loop inside `next_msg`
(src/ai/chat/core.rs lines 143-146): each generated message is pushed onto the
transcript and then inserted; a failing insert aborts with the transcript and
rows written so far. -/
def persistMsgs (transcript dbRows : List Message) (outcomes : List (Except String Unit)) :
    List Message → Except String Unit × List Message × List Message
  | [] => (Except.ok (), transcript, dbRows)
  | m :: ms =>
    match outcomes with
    | [] => persistMsgs (transcript ++ [m]) (dbRows ++ [m]) [] ms
    | Except.error e :: _ => (Except.error e, transcript ++ [m], dbRows)
    | Except.ok _ :: os => persistMsgs (transcript ++ [m]) (dbRows ++ [m]) os ms

/-- `Chat::next_msg` (src/ai/chat/core.rs lines 111-154).  The input message
is pushed onto the session transcript first; then the buffered or streaming
loop runs; on success, when a store is configured, the session row is ensured,
the input message is inserted, and each generated message is pushed onto the
transcript and inserted; without a store the generated messages are pushed
directly.  No step is rolled back on error. -/
def next_msg (streaming : Bool) (tools : Option (List Capability))
    (db : Option PersistOutcomes) (responses : List (Except String Resp))
    (transcript : List Message) (msg : Message) : NextMsgOut :=
  let t1 := transcript ++ [msg]
  match chatLoopOf streaming tools responses t1 with
  | Except.error e => { result := Except.error e, transcript := t1, dbRows := [] }
  | Except.ok messages =>
    match db with
    | none =>
      { result := Except.ok messages, transcript := t1 ++ messages, dbRows := [] }
    | some p =>
      match p.ensure with
      | Except.error e => { result := Except.error e, transcript := t1, dbRows := [] }
      | Except.ok _ =>
        match p.inserts with
        | Except.error e :: _ =>
          { result := Except.error e, transcript := t1, dbRows := [] }
        | os =>
          match persistMsgs t1 [msg] os.tail messages with
          | (Except.error e, t2, rows) =>
            { result := Except.error e, transcript := t2, dbRows := rows }
          | (Except.ok _, t2, rows) =>
            { result := Except.ok messages, transcript := t2, dbRows := rows }

/-! ## Claim-side predicates and concrete demonstration values -/

/-- A tool-call request the spec calls a hard error for the dispatcher: a
missing `id`, `name` or `arguments` field, a name not present in the
registered capability set, or a capability whose invocation fails. -/
def badRequest (tools : List Capability) (r : ToolCallValue) : Prop :=
  r.id = none ∨ r.name = none ∨ r.arguments = none
  ∨ (∃ name, r.name = some name ∧ tools.find? (fun t => t.name == name) = none)
  ∨ (∃ name args cap e, r.name = some name ∧ r.arguments = some args
      ∧ tools.find? (fun t => t.name == name) = some cap
      ∧ cap.call args = Except.error e)

/-- A one-capability registry mirroring the repository's `MockTool` test
double: function name `mock_tool`, every invocation returning `mock result`. -/
def demoTools : List Capability :=
  [{ name := "mock_tool", call := fun _ => Except.ok "mock result" }]

/-- A well-formed request for `mock_tool`. -/
def demoReq1 : ToolCallValue :=
  { id := some "call_1", name := some "mock_tool", arguments := some "argA" }

/-- A second well-formed request for `mock_tool`. -/
def demoReq2 : ToolCallValue :=
  { id := some "call_2", name := some "mock_tool", arguments := some "argB" }

/-- A request naming a capability absent from `demoTools`. -/
def demoBadReq : ToolCallValue :=
  { id := some "call_3", name := some "missing_tool", arguments := some "argC" }

/-- The user message used in concrete demonstrations. -/
def demoUser : Message := Message.new Role.User "Hi"

/-! # Theorems -/

/-- Helper: when `oneTurn` leaves the tool-call loop with a final value, the
loop returns that value whatever completion outcomes remain. -/
theorem chatTurns_finish (isStream : Bool) (tools : Option (List Capability))
    (acc : List Message) (resp : Resp) (rest : List (Except String Resp))
    (r : Except String (List Message))
    (h : oneTurn isStream tools acc resp = Sum.inl r) :
    chatTurns isStream tools acc resp rest = r := by
  rw [chatTurns, h]
  rcases rest with _ | ⟨r2, rest2⟩
  · rfl
  · rcases r2 with e | resp2 <;> rfl

/-- Helper: a run of `k` successful insert outcomes followed by a failing one
stops the persistence loop right after pushing the `k+1`-st message onto the
transcript, having written only the first `k` messages to the store. -/
theorem persistMsgs_replicate_error :
    ∀ (k : Nat) (msgs t rows : List Message) (e : String) (os : List (Except String Unit)),
      k < msgs.length →
      persistMsgs t rows (List.replicate k (Except.ok ()) ++ Except.error e :: os) msgs
        = (Except.error e, t ++ msgs.take (k + 1), rows ++ msgs.take k)
  | 0, [], _, _, _, _, h => absurd h (by simp)
  | 0, _ :: _, t, rows, e, os, _ => by
      simp [persistMsgs]
  | _ + 1, [], _, _, _, _, h => absurd h (by simp)
  | k + 1, m :: ms, t, rows, e, os, h => by
      have ih := persistMsgs_replicate_error k ms (t ++ [m]) (rows ++ [m]) e os
        (Nat.lt_of_succ_lt_succ h)
      simp [persistMsgs, List.replicate_succ, ih, List.take_succ_cons, List.append_assoc]

/-- C1 (amended): a hard error from the completion exchange or a tool
invocation (a failing inner chat loop) aborts `next_msg` before any store
write and before any generated message reaches the transcript, but the
originating input message has already been appended to the transcript and is
not rolled back.  A failing `get_or_create_session` or a failing insert of the
input message likewise leaves the transcript at prior-plus-input with no rows
written; a failing insert of the `k+1`-st generated message leaves the input
message and the first `k+1` generated messages on the transcript and the input
message plus the first `k` generated messages in the store. -/
theorem next_msg_hard_error_commit :
    (∀ (streaming : Bool) (tools : Option (List Capability)) (db : Option PersistOutcomes)
        (responses : List (Except String Resp)) (t : List Message) (msg : Message) (e : String),
        chatLoopOf streaming tools responses (t ++ [msg]) = Except.error e →
        next_msg streaming tools db responses t msg
          = { result := Except.error e, transcript := t ++ [msg], dbRows := [] })
  ∧ (∀ (streaming : Bool) (tools : Option (List Capability))
        (ins : List (Except String Unit)) (responses : List (Except String Resp))
        (t : List Message) (msg : Message) (msgs : List Message) (e : String),
        chatLoopOf streaming tools responses (t ++ [msg]) = Except.ok msgs →
        next_msg streaming tools (some { ensure := Except.error e, inserts := ins })
            responses t msg
          = { result := Except.error e, transcript := t ++ [msg], dbRows := [] })
  ∧ (∀ (streaming : Bool) (tools : Option (List Capability))
        (os : List (Except String Unit)) (responses : List (Except String Resp))
        (t : List Message) (msg : Message) (msgs : List Message) (e : String),
        chatLoopOf streaming tools responses (t ++ [msg]) = Except.ok msgs →
        next_msg streaming tools
            (some { ensure := Except.ok (), inserts := Except.error e :: os })
            responses t msg
          = { result := Except.error e, transcript := t ++ [msg], dbRows := [] })
  ∧ (∀ (streaming : Bool) (tools : Option (List Capability))
        (responses : List (Except String Resp)) (t : List Message) (msg : Message)
        (msgs : List Message) (k : Nat) (e : String) (os : List (Except String Unit)),
        chatLoopOf streaming tools responses (t ++ [msg]) = Except.ok msgs →
        k < msgs.length →
        next_msg streaming tools
            (some { ensure := Except.ok (),
                    inserts := Except.ok ()
                      :: (List.replicate k (Except.ok ()) ++ Except.error e :: os) })
            responses t msg
          = { result := Except.error e,
              transcript := (t ++ [msg]) ++ msgs.take (k + 1),
              dbRows := msg :: msgs.take k }) := by
  refine ⟨?_, ?_, ?_, ?_⟩
  · intro streaming tools db responses t msg e h
    simp [next_msg, h]
  · intro streaming tools ins responses t msg msgs e h
    simp [next_msg, h]
  · intro streaming tools os responses t msg msgs e h
    simp [next_msg, h]
  · intro streaming tools responses t msg msgs k e os h hk
    simp [next_msg, h, persistMsgs_replicate_error k msgs (t ++ [msg]) [msg] e os hk]

/-- Witness for `next_msg_hard_error_commit`: concrete instances of all four
error cases, each hypothesis discharged by evaluation. -/
theorem next_msg_hard_error_commit_witness :
    (chatLoopOf false none [Except.error "connection refused"] ([] ++ [demoUser])
        = Except.error "connection refused")
  ∧ (chatLoopOf false none [Except.ok { content := some "Hello!", tool_calls := none }]
        ([] ++ [demoUser]) = Except.ok [Message.new Role.Assistant "Hello!"])
  ∧ next_msg false none none [Except.error "connection refused"] [] demoUser
      = { result := Except.error "connection refused", transcript := [] ++ [demoUser],
          dbRows := [] }
  ∧ next_msg false none (some { ensure := Except.error "db locked", inserts := [] })
      [Except.ok { content := some "Hello!", tool_calls := none }] [] demoUser
      = { result := Except.error "db locked", transcript := [] ++ [demoUser], dbRows := [] }
  ∧ next_msg false none
      (some { ensure := Except.ok (), inserts := [Except.error "insert failed"] })
      [Except.ok { content := some "Hello!", tool_calls := none }] [] demoUser
      = { result := Except.error "insert failed", transcript := [] ++ [demoUser],
          dbRows := [] }
  ∧ next_msg false none
      (some { ensure := Except.ok (), inserts := [Except.ok (), Except.error "insert failed"] })
      [Except.ok { content := some "Hello!", tool_calls := none }] [] demoUser
      = { result := Except.error "insert failed",
          transcript := ([] ++ [demoUser]) ++ [Message.new Role.Assistant "Hello!"].take (0 + 1),
          dbRows := demoUser :: [Message.new Role.Assistant "Hello!"].take 0 } := by
  refine ⟨rfl, rfl, ?_, ?_, ?_, ?_⟩
  · exact next_msg_hard_error_commit.1 false none none _ [] demoUser _ rfl
  · exact next_msg_hard_error_commit.2.1 false none [] _ [] demoUser
      [Message.new Role.Assistant "Hello!"] "db locked" rfl
  · exact next_msg_hard_error_commit.2.2.1 false none [] _ [] demoUser
      [Message.new Role.Assistant "Hello!"] "insert failed" rfl
  · exact next_msg_hard_error_commit.2.2.2 false none _ [] demoUser
      [Message.new Role.Assistant "Hello!"] 0 "insert failed" [] rfl (by decide)

/-- Counterexample to C1 as stated: a failing completion exchange returns a
hard error, yet the transcript after the call is not the transcript before
the call — the originating input message has been committed to it. -/
theorem next_msg_input_message_retained_on_error :
    (next_msg false none none [Except.error "connection refused"] [] demoUser).result
        = Except.error "connection refused"
  ∧ (next_msg false none none [Except.error "connection refused"] [] demoUser).transcript
        = [demoUser]
  ∧ [demoUser] ≠ ([] : List Message) :=
  ⟨rfl, rfl, by decide⟩

/-- Helper: over frames that are all content or stop deltas, the decode loop
runs to the first terminating frame and appends exactly the content texts of
the frames before it onto the content buffer, leaving the other state
untouched. -/
theorem runStream_content_only :
    ∀ (cs : List ChunkChoice) (st : StreamState),
      (∀ c ∈ cs, contentOrStop c = true) →
      runStream st (cs.map SSEvent.chunk ++ [SSEvent.done])
        = Except.ok { st with content_buf := (st.content_buf
            ++ concatTexts ((cs.takeWhile (fun c => !terminatesChoice c)).filterMap contentText)) }
  | [], st, _ => by
      simp [runStream, concatTexts]
  | c :: cs, st, h => by
      have hc : contentOrStop c = true := h c (List.mem_cons_self c cs)
      have hcs : ∀ x ∈ cs, contentOrStop x = true := fun x hx => h x (List.mem_cons_of_mem c hx)
      rcases c with ⟨delta, fr⟩
      cases delta with
      | Content s =>
        cases fr with
        | none =>
          have ih := runStream_content_only cs { st with content_buf := st.content_buf ++ s } hcs
          simp [runStream, stepChoice, terminatesChoice, contentText, concatTexts, ih,
            String.append_assoc]
        | some x =>
          simp [runStream, stepChoice, terminatesChoice, concatTexts]
      | Stop =>
          simp [runStream, stepChoice, terminatesChoice, concatTexts]
      | Reasoning r => simp [contentOrStop] at hc
      | ToolCall tcs => simp [contentOrStop] at hc

/-- C2: for a streaming sequence of content-delta frames terminated by
`[DONE]`, the assembled content equals the ordered concatenation of the
content text of every frame processed before the decode loop terminates —
exactly the frames carrying no `finish_reason` (and not `Stop`), since the
first frame that carries one (its text discarded) or is a `Stop` ends the
loop.  The model reads a present `finish_reason` (`Option.isSome`) for the
claim's non-empty `finish_reason`, matching the source's
`choice.finish_reason.is_some()`. -/
theorem completion_stream_content_assembly (cs : List ChunkChoice)
    (h : ∀ c ∈ cs, contentOrStop c = true) :
    completion_stream (cs.map SSEvent.chunk ++ [SSEvent.done])
      = Except.ok (StreamResult.content
          (concatTexts ((cs.takeWhile (fun c => !terminatesChoice c)).filterMap contentText))) := by
  have hr := runStream_content_only cs initState h
  simp only [initState] at hr
  simp [completion_stream, initState, hr, assemble, Except.map]

/-- Witness for `completion_stream_content_assembly`: the repository's own
streaming scenario — frames `Hello`, ` World`, then `!` carrying
`finish_reason = stop` — assembles to `Hello World`. -/
theorem completion_stream_content_assembly_witness :
    (∀ c ∈ [ChunkChoice.mk (Delta.Content "Hello") none,
            ChunkChoice.mk (Delta.Content " World") none,
            ChunkChoice.mk (Delta.Content "!") (some "stop")], contentOrStop c = true)
  ∧ completion_stream
      ([ChunkChoice.mk (Delta.Content "Hello") none,
        ChunkChoice.mk (Delta.Content " World") none,
        ChunkChoice.mk (Delta.Content "!") (some "stop")].map SSEvent.chunk ++ [SSEvent.done])
      = Except.ok (StreamResult.content
          (concatTexts (([ChunkChoice.mk (Delta.Content "Hello") none,
                          ChunkChoice.mk (Delta.Content " World") none,
                          ChunkChoice.mk (Delta.Content "!") (some "stop")].takeWhile
                            (fun c => !terminatesChoice c)).filterMap contentText)))
  ∧ concatTexts (([ChunkChoice.mk (Delta.Content "Hello") none,
                   ChunkChoice.mk (Delta.Content " World") none,
                   ChunkChoice.mk (Delta.Content "!") (some "stop")].takeWhile
                     (fun c => !terminatesChoice c)).filterMap contentText) = "Hello World" :=
  ⟨by decide, completion_stream_content_assembly _ (by decide), by decide⟩

/-- Helper: replacing every entry of a given index by a new entry carrying
that same index leaves the index list unchanged. -/
theorem toolIndices_replace (m : List ToolCallFinal) (i : Nat) (tc : ToolCallFinal)
    (htc : tc.index = i) :
    toolIndices (m.map (fun e => if e.index == i then tc else e)) = toolIndices m := by
  unfold toolIndices
  rw [List.map_map]
  apply List.map_congr_left
  intro e _
  by_cases hbe : e.index = i
  · simp [Function.comp, hbe, htc]
  · simp [Function.comp, hbe]

/-- Helper: `mapModify` with an index-preserving update leaves the index list
unchanged. -/
theorem toolIndices_mapModify (m : List ToolCallFinal) (i : Nat)
    (f : ToolCallFinal → ToolCallFinal) (hf : ∀ v, (f v).index = v.index) :
    toolIndices (mapModify m i f) = toolIndices m := by
  unfold toolIndices mapModify
  rw [List.map_map]
  apply List.map_congr_left
  intro e _
  by_cases hbe : e.index = i
  · simp [Function.comp, hbe, hf]
  · simp [Function.comp, hbe]

/-- Helper: every accumulation step keeps the map keyed — the index list stays
duplicate-free. -/
theorem nodup_toolIndices_applyChunk (m : List ToolCallFinal) (c : ToolCallChunk)
    (h : (toolIndices m).Nodup) : (toolIndices (applyChunk m c)).Nodup := by
  cases c with
  | Init id i name args ty =>
    by_cases hpres : m.any (fun e => e.index == i) = true
    · show (toolIndices (mapInsert m
        { id := id, index := i, name := name, arguments := args, type := ty })).Nodup
      rw [mapInsert, if_pos hpres]
      rw [toolIndices_replace m i _ rfl]
      exact h
    · have hfalse : ¬ (m.any (fun e => e.index == i) = true) := hpres
      have hnot : i ∉ toolIndices m := by
        intro hmem
        rcases List.mem_map.mp hmem with ⟨e, he, hei⟩
        exact hfalse (List.any_eq_true.mpr ⟨e, he, by simp [hei]⟩)
      show (toolIndices (mapInsert m
        { id := id, index := i, name := name, arguments := args, type := ty })).Nodup
      rw [mapInsert, if_neg hpres]
      have happ : toolIndices (m ++
          [{ id := id, index := i, name := name, arguments := args, type := ty }])
          = toolIndices m ++ [i] := by
        simp [toolIndices]
      rw [happ]
      refine List.Nodup.append h (List.nodup_singleton i) ?_
      intro a ha hb
      have : a = i := by simpa using hb
      exact hnot (this ▸ ha)
  | ArgsDelta i args ty =>
    show (toolIndices (mapModify m i
      (fun v => { v with arguments := v.arguments ++ args }))).Nodup
    rw [toolIndices_mapModify m i
      (fun v => { v with arguments := v.arguments ++ args }) (fun v => rfl)]
    exact h

/-- Helper: the whole per-frame chunk fold keeps the index list
duplicate-free. -/
theorem nodup_toolIndices_applyChunks (cs : List ToolCallChunk) :
    ∀ m, (toolIndices m).Nodup → (toolIndices (applyChunks m cs)).Nodup := by
  induction cs with
  | nil => intro m h; simpa [applyChunks] using h
  | cons c cs ih =>
    intro m h
    have := ih (applyChunk m c) (nodup_toolIndices_applyChunk m c h)
    simpa [applyChunks] using this

/-- Helper: one decode-loop step keeps the index list duplicate-free. -/
theorem nodup_toolIndices_stepChoice (st : StreamState) (c : ChunkChoice)
    (h : (toolIndices st.tool_calls).Nodup) :
    (toolIndices (stepChoice st c).1.tool_calls).Nodup := by
  rcases c with ⟨delta, fr⟩
  cases delta with
  | Reasoning r => cases fr <;> simpa [stepChoice] using h
  | Content s => cases fr <;> simpa [stepChoice] using h
  | Stop => simpa [stepChoice] using h
  | ToolCall cs =>
    cases fr with
    | some x => simpa [stepChoice] using h
    | none => simpa [stepChoice] using nodup_toolIndices_applyChunks cs st.tool_calls h

/-- Helper: a successful decode run keeps the index list duplicate-free. -/
theorem runStream_nodup :
    ∀ (es : List SSEvent) (st st2 : StreamState),
      (toolIndices st.tool_calls).Nodup → runStream st es = Except.ok st2 →
      (toolIndices st2.tool_calls).Nodup
  | [], st, st2, h, he => by
      simp [runStream] at he
      exact he ▸ h
  | SSEvent.done :: _, st, st2, h, he => by
      simp [runStream] at he
      exact he ▸ h
  | SSEvent.malformed raw :: _, st, st2, h, he => by
      simp [runStream] at he
  | SSEvent.chunk c :: rest, st, st2, h, he => by
      by_cases hh : (stepChoice st c).2 = true
      · simp [runStream, hh] at he
        exact he ▸ nodup_toolIndices_stepChoice st c h
      · have hh2 : (stepChoice st c).2 = false := by simpa using hh
        simp [runStream, hh2] at he
        exact runStream_nodup rest _ st2 (nodup_toolIndices_stepChoice st c h) he

/-- C3 (amended): on a successfully terminated stream, the result is the
tool-calls value exactly when the accumulation map is non-empty and the
content value otherwise, and the emitted entries are exactly the accumulated
ones — one per initialised index, the index list being duplicate-free.  The
order of the entries is, however, whatever the `HashMap::values` iteration
yields, which Rust leaves unspecified (the model realizes insertion order);
it is not sorted by stream index. -/
theorem completion_stream_result_shape (events : List SSEvent) (st : StreamState)
    (h : runStream initState events = Except.ok st) :
    completion_stream events
      = Except.ok (if st.tool_calls.isEmpty then StreamResult.content st.content_buf
                   else StreamResult.toolCalls st.tool_calls)
    ∧ (toolIndices st.tool_calls).Nodup := by
  constructor
  · simp [completion_stream, h, Except.map, assemble]
  · exact runStream_nodup events initState st (by simp [initState, toolIndices]) h

/-- Witness for `completion_stream_result_shape`: an `Init` followed by an
`ArgsDelta` for index 0 yields the single accumulated entry. -/
theorem completion_stream_result_shape_witness :
    runStream initState
        [SSEvent.chunk (ChunkChoice.mk
            (Delta.ToolCall [ToolCallChunk.Init "call_a" 0 "search" "q1" "function"]) none),
         SSEvent.chunk (ChunkChoice.mk
            (Delta.ToolCall [ToolCallChunk.ArgsDelta 0 "q2" "function"]) none),
         SSEvent.done]
      = Except.ok
          { content_buf := "", reasoning_buf := "",
            tool_calls := [{ id := "call_a", index := 0, name := "search",
                             arguments := "q1q2", type := "function" }] }
  ∧ (completion_stream
        [SSEvent.chunk (ChunkChoice.mk
            (Delta.ToolCall [ToolCallChunk.Init "call_a" 0 "search" "q1" "function"]) none),
         SSEvent.chunk (ChunkChoice.mk
            (Delta.ToolCall [ToolCallChunk.ArgsDelta 0 "q2" "function"]) none),
         SSEvent.done]
      = Except.ok
          (if ([{ id := "call_a", index := 0, name := "search",
                  arguments := "q1q2", type := "function" }] : List ToolCallFinal).isEmpty
           then StreamResult.content ""
           else StreamResult.toolCalls
             [{ id := "call_a", index := 0, name := "search",
                arguments := "q1q2", type := "function" }])
    ∧ (toolIndices [{ id := "call_a", index := 0, name := "search",
                      arguments := "q1q2", type := "function" }]).Nodup) :=
  ⟨rfl, completion_stream_result_shape
    [SSEvent.chunk (ChunkChoice.mk
        (Delta.ToolCall [ToolCallChunk.Init "call_a" 0 "search" "q1" "function"]) none),
     SSEvent.chunk (ChunkChoice.mk
        (Delta.ToolCall [ToolCallChunk.ArgsDelta 0 "q2" "function"]) none),
     SSEvent.done]
    { content_buf := "", reasoning_buf := "",
      tool_calls := [{ id := "call_a", index := 0, name := "search",
                       arguments := "q1q2", type := "function" }] } rfl⟩

/-- Counterexample to C3 as stated: two `Init` frames arriving as index 1 then
index 0 produce the entries in arrival (insertion) order `[1, 0]` — one
admissible iteration order of the source's `HashMap::values`, which performs
no sort — not in ascending stream-index order `[0, 1]` as the claim
demands. -/
theorem completion_stream_values_not_index_sorted :
    completion_stream
        [SSEvent.chunk (ChunkChoice.mk
            (Delta.ToolCall [ToolCallChunk.Init "call_b" 1 "toolB" "argB" "function"]) none),
         SSEvent.chunk (ChunkChoice.mk
            (Delta.ToolCall [ToolCallChunk.Init "call_a" 0 "toolA" "argA" "function"]) none),
         SSEvent.done]
      = Except.ok (StreamResult.toolCalls
          [{ id := "call_b", index := 1, name := "toolB", arguments := "argB", type := "function" },
           { id := "call_a", index := 0, name := "toolA", arguments := "argA", type := "function" }])
  ∧ toolIndices
      [{ id := "call_b", index := 1, name := "toolB", arguments := "argB", type := "function" },
       { id := "call_a", index := 0, name := "toolA", arguments := "argA", type := "function" }]
      = [1, 0]
  ∧ ([1, 0] : List Nat) ≠ [0, 1] :=
  ⟨rfl, rfl, by decide⟩

/-- C10: when a terminated stream has accumulated a non-empty content buffer
and a non-empty tool-call map, the returned value is the tool-calls result
built from the map alone; the `toolCalls` constructor carries no content
field, so the accumulated content appears nowhere in it. -/
theorem completion_stream_toolcalls_discard_content (events : List SSEvent) (st : StreamState)
    (h : runStream initState events = Except.ok st)
    (_hc : st.content_buf ≠ "") (ht : st.tool_calls ≠ []) :
    completion_stream events = Except.ok (StreamResult.toolCalls st.tool_calls)
    ∧ StreamResult.toolCalls st.tool_calls ≠ StreamResult.content st.content_buf := by
  constructor
  · have hemp : st.tool_calls.isEmpty = false := by simp [List.isEmpty_iff, ht]
    simp [completion_stream, h, Except.map, assemble, hemp]
  · intro hcontra
    exact StreamResult.noConfusion hcontra

/-- Witness for `completion_stream_toolcalls_discard_content`: a content frame
followed by a tool-call frame yields only the tool-calls value. -/
theorem completion_stream_toolcalls_discard_content_witness :
    runStream initState
        [SSEvent.chunk (ChunkChoice.mk (Delta.Content "Hi there") none),
         SSEvent.chunk (ChunkChoice.mk
            (Delta.ToolCall [ToolCallChunk.Init "c1" 0 "toolA" "x" "function"]) none),
         SSEvent.done]
      = Except.ok
          { content_buf := "Hi there", reasoning_buf := "",
            tool_calls := [{ id := "c1", index := 0, name := "toolA",
                             arguments := "x", type := "function" }] }
  ∧ ("Hi there" : String) ≠ ""
  ∧ ([{ id := "c1", index := 0, name := "toolA",
        arguments := "x", type := "function" }] : List ToolCallFinal) ≠ []
  ∧ (completion_stream
        [SSEvent.chunk (ChunkChoice.mk (Delta.Content "Hi there") none),
         SSEvent.chunk (ChunkChoice.mk
            (Delta.ToolCall [ToolCallChunk.Init "c1" 0 "toolA" "x" "function"]) none),
         SSEvent.done]
      = Except.ok (StreamResult.toolCalls
          [{ id := "c1", index := 0, name := "toolA", arguments := "x", type := "function" }])
    ∧ StreamResult.toolCalls
        [{ id := "c1", index := 0, name := "toolA", arguments := "x", type := "function" }]
      ≠ StreamResult.content "Hi there") :=
  ⟨rfl, by decide, by decide,
   completion_stream_toolcalls_discard_content
    [SSEvent.chunk (ChunkChoice.mk (Delta.Content "Hi there") none),
     SSEvent.chunk (ChunkChoice.mk
        (Delta.ToolCall [ToolCallChunk.Init "c1" 0 "toolA" "x" "function"]) none),
     SSEvent.done]
    { content_buf := "Hi there", reasoning_buf := "",
      tool_calls := [{ id := "c1", index := 0, name := "toolA",
                       arguments := "x", type := "function" }] }
    rfl (by decide) (by decide)⟩

/-- Helper: mapping a text over `Option` with an empty appended fragment is
the identity. -/
theorem option_map_append_empty (o : Option ToolCallFinal) :
    o.map (fun v => { v with arguments := v.arguments ++ "" }) = o := by
  cases o with
  | none => rfl
  | some v => simp [String.append_empty]

/-- Helper: peeling one sub-delta off the fragment concatenation for index
`i`. -/
theorem concatTexts_filterMap_cons (i : Nat) (c : ToolCallChunk) (cs : List ToolCallChunk) :
    concatTexts ((c :: cs).filterMap (argsFor i))
      = ((argsFor i c).getD "") ++ concatTexts (cs.filterMap (argsFor i)) := by
  cases h : argsFor i c <;> simp [h, concatTexts]

/-- Helper: after `HashMap::insert`, looking up the inserted key returns the
inserted entry. -/
theorem lookupIdx_mapInsert_self (m : List ToolCallFinal) (tc : ToolCallFinal) :
    lookupIdx (mapInsert m tc) tc.index = some tc := by
  unfold lookupIdx mapInsert
  by_cases hpres : m.any (fun e => e.index == tc.index) = true
  · rw [if_pos hpres]
    induction m with
    | nil => simp at hpres
    | cons e m ih =>
      by_cases hbe : e.index = tc.index
      · simp only [List.map_cons]
        rw [if_pos (by simp [hbe])]
        exact List.find?_cons_of_pos _ (by simp)
      · have hany : m.any (fun x => x.index == tc.index) = true := by
          simpa [hbe] using hpres
        simp only [List.map_cons]
        rw [if_neg (by simp [hbe])]
        rw [List.find?_cons_of_neg _ (by simp [hbe])]
        exact ih hany
  · rw [if_neg hpres]
    have hnone : m.find? (fun e => e.index == tc.index) = none := by
      refine List.find?_eq_none.mpr ?_
      intro e he
      intro hcontra
      exact hpres (List.any_eq_true.mpr ⟨e, he, hcontra⟩)
    rw [List.find?_append, hnone]
    simp

/-- Helper: `HashMap::insert` does not disturb lookups of other keys. -/
theorem lookupIdx_mapInsert_ne (m : List ToolCallFinal) (tc : ToolCallFinal) (i : Nat)
    (hne : (tc.index == i) = false) :
    lookupIdx (mapInsert m tc) i = lookupIdx m i := by
  unfold lookupIdx mapInsert
  by_cases hpres : m.any (fun e => e.index == tc.index) = true
  · rw [if_pos hpres]
    induction m with
    | nil => simp
    | cons e m ih =>
      by_cases hbe : e.index = tc.index
      · have hei : (e.index == i) = false := by
          simpa [hbe] using hne
        simp only [List.map_cons]
        rw [if_pos (by simp [hbe])]
        rw [List.find?_cons_of_neg _ (by simp [hne]),
            List.find?_cons_of_neg _ (by simp [hei])]
        by_cases hany : m.any (fun x => x.index == tc.index) = true
        · exact ih hany
        · have hid : m.map (fun e => if e.index == tc.index then tc else e) = m := by
            refine List.map_congr_left ?_ |>.trans (List.map_id m)
            intro x hx
            have : ¬ (x.index == tc.index) = true := fun hxc =>
              hany (List.any_eq_true.mpr ⟨x, hx, hxc⟩)
            simp [Bool.not_eq_true] at this
            simp [this]
          rw [hid]
      · simp only [List.map_cons]
        rw [if_neg (by simp [hbe])]
        by_cases hei : e.index = i
        · rw [List.find?_cons_of_pos _ (by simp [hei]),
              List.find?_cons_of_pos _ (by simp [hei])]
        · rw [List.find?_cons_of_neg _ (by simp [hei]),
              List.find?_cons_of_neg _ (by simp [hei])]
          by_cases hany : m.any (fun x => x.index == tc.index) = true
          · exact ih hany
          · have hid : m.map (fun e => if e.index == tc.index then tc else e) = m := by
              refine List.map_congr_left ?_ |>.trans (List.map_id m)
              intro x hx
              have : ¬ (x.index == tc.index) = true := fun hxc =>
                hany (List.any_eq_true.mpr ⟨x, hx, hxc⟩)
              simp [Bool.not_eq_true] at this
              simp [this]
            rw [hid]
  · rw [if_neg hpres]
    rw [List.find?_append]
    have : [tc].find? (fun e => e.index == i) = none := by
      simp [List.find?, hne]
    rw [this, Option.or_none]

/-- Helper: `and_modify` transforms the looked-up entry of its own key. -/
theorem lookupIdx_mapModify_self (m : List ToolCallFinal) (i : Nat)
    (f : ToolCallFinal → ToolCallFinal) (hf : ∀ v, (f v).index = v.index) :
    lookupIdx (mapModify m i f) i = (lookupIdx m i).map f := by
  unfold lookupIdx mapModify
  induction m with
  | nil => simp
  | cons e m ih =>
    by_cases hbe : e.index = i
    · simp only [List.map_cons]
      rw [if_pos (by simp [hbe])]
      rw [List.find?_cons_of_pos _ (by simp [hf, hbe]),
          List.find?_cons_of_pos _ (by simp [hbe])]
      rfl
    · simp only [List.map_cons]
      rw [if_neg (by simp [hbe])]
      rw [List.find?_cons_of_neg _ (by simp [hbe]),
          List.find?_cons_of_neg _ (by simp [hbe])]
      exact ih

/-- Helper: `and_modify` of one key does not disturb lookups of another. -/
theorem lookupIdx_mapModify_ne (m : List ToolCallFinal) (j i : Nat)
    (f : ToolCallFinal → ToolCallFinal) (hf : ∀ v, (f v).index = v.index)
    (hne : (j == i) = false) :
    lookupIdx (mapModify m j f) i = lookupIdx m i := by
  unfold lookupIdx mapModify
  induction m with
  | nil => simp
  | cons e m ih =>
    by_cases hbe : e.index = j
    · have hei : (e.index == i) = false := by
        simpa [hbe] using hne
      simp only [List.map_cons]
      rw [if_pos (by simp [hbe])]
      rw [List.find?_cons_of_neg _ (by simp [hf, hbe, hne]),
          List.find?_cons_of_neg _ (by simp [hei])]
      exact ih
    · simp only [List.map_cons]
      rw [if_neg (by simp [hbe])]
      by_cases hei : e.index = i
      · rw [List.find?_cons_of_pos _ (by simp [hei]),
            List.find?_cons_of_pos _ (by simp [hei])]
      · rw [List.find?_cons_of_neg _ (by simp [hei]),
            List.find?_cons_of_neg _ (by simp [hei])]
        exact ih

/-- Helper: `and_modify` of a key that is not bound leaves the map unchanged
— the defensive no-op of the source for an unknown index. -/
theorem mapModify_not_mem (m : List ToolCallFinal) (j : Nat)
    (f : ToolCallFinal → ToolCallFinal) (h : lookupIdx m j = none) :
    mapModify m j f = m := by
  unfold mapModify
  have hall : ∀ e ∈ m, (if e.index == j then f e else e) = e := by
    intro e he
    have := List.find?_eq_none.mp h e he
    simp [Bool.not_eq_true] at this
    simp [this]
  exact (List.map_congr_left hall).trans (List.map_id m)

/-- Helper: the effect of one sub-delta that is not an `Init` for index `i` on
the lookup of `i`: an `ArgsDelta` for `i` appends its fragment, every other
sub-delta leaves the entry untouched (appending the empty fragment). -/
theorem lookupIdx_applyChunk_not_init (i : Nat) (m : List ToolCallFinal)
    (c : ToolCallChunk) (hc : isInitFor i c = false) :
    lookupIdx (applyChunk m c) i
      = (lookupIdx m i).map
          (fun v => { v with arguments := v.arguments ++ ((argsFor i c).getD "") }) := by
  cases c with
  | Init id j n a t =>
    have hne : (j == i) = false := by
      simpa [isInitFor] using hc
    show lookupIdx (mapInsert m _) i = _
    rw [lookupIdx_mapInsert_ne m
      { id := id, index := j, name := n, arguments := a, type := t } i hne]
    rw [show argsFor i (ToolCallChunk.Init id j n a t) = none from rfl]
    exact (option_map_append_empty (lookupIdx m i)).symm
  | ArgsDelta j a t =>
    cases hji : (j == i) with
    | true =>
      have hj : j = i := by simpa using hji
      show lookupIdx (mapModify m j (fun v => { v with arguments := v.arguments ++ a })) i = _
      rw [show argsFor i (ToolCallChunk.ArgsDelta j a t) = some a from by simp [argsFor, hji]]
      rw [hj]
      exact lookupIdx_mapModify_self m i
        (fun v => { v with arguments := v.arguments ++ a }) (fun v => rfl)
    | false =>
      show lookupIdx (mapModify m j (fun v => { v with arguments := v.arguments ++ a })) i = _
      rw [lookupIdx_mapModify_ne m j i
        (fun v => { v with arguments := v.arguments ++ a }) (fun v => rfl) hji]
      rw [show argsFor i (ToolCallChunk.ArgsDelta j a t) = none from by simp [argsFor, hji]]
      exact (option_map_append_empty (lookupIdx m i)).symm

/-- Helper: an `Init` binds its index to the fresh entry. -/
theorem lookupIdx_applyChunk_init (m : List ToolCallFinal)
    (id : String) (i : Nat) (name args ty : String) :
    lookupIdx (applyChunk m (ToolCallChunk.Init id i name args ty)) i
      = some { id := id, index := i, name := name, arguments := args, type := ty } :=
  lookupIdx_mapInsert_self m
    { id := id, index := i, name := name, arguments := args, type := ty }

/-- Helper: without an `Init` for index `i`, no sequence of sub-deltas can
bind `i`. -/
theorem lookupIdx_none_applyChunks (i : Nat) :
    ∀ (cs : List ToolCallChunk) (m : List ToolCallFinal),
      lookupIdx m i = none → (∀ c ∈ cs, isInitFor i c = false) →
      lookupIdx (applyChunks m cs) i = none
  | [], m, h, _ => h
  | c :: cs, m, h, hcs => by
      have hstep := lookupIdx_applyChunk_not_init i m c (hcs c (List.mem_cons_self c cs))
      rw [h] at hstep
      exact lookupIdx_none_applyChunks i cs (applyChunk m c) hstep
        (fun x hx => hcs x (List.mem_cons_of_mem c hx))

/-- Helper: once index `i` is bound, a sequence of sub-deltas containing no
further `Init` for `i` appends exactly the `ArgsDelta` fragments for `i`, in
order, to its accumulated arguments. -/
theorem lookupIdx_applyChunks_track (i : Nat) :
    ∀ (cs : List ToolCallChunk) (m : List ToolCallFinal) (e : ToolCallFinal),
      lookupIdx m i = some e → (∀ c ∈ cs, isInitFor i c = false) →
      lookupIdx (applyChunks m cs) i
        = some { e with arguments := e.arguments ++ concatTexts (cs.filterMap (argsFor i)) }
  | [], m, e, h, _ => by
      simpa [applyChunks, concatTexts] using h
  | c :: cs, m, e, h, hcs => by
      have hstep := lookupIdx_applyChunk_not_init i m c (hcs c (List.mem_cons_self c cs))
      rw [h] at hstep
      have ih := lookupIdx_applyChunks_track i cs (applyChunk m c) _ hstep
        (fun x hx => hcs x (List.mem_cons_of_mem c hx))
      rw [show applyChunks m (c :: cs) = applyChunks (applyChunk m c) cs from rfl]
      rw [ih, concatTexts_filterMap_cons]
      simp [String.append_assoc]

/-- C4: over the sub-delta sequence of a streaming exchange, an index `i`
initialised by exactly one `Init` accumulates the `Init`'s initial fragment
followed by every later `ArgsDelta` fragment for `i`, in arrival order,
regardless of how sub-deltas for other indices are interleaved around them;
and an `ArgsDelta` whose index is not bound leaves the accumulation map
unchanged (`entry(..).and_modify` without an `or_insert`). -/
theorem tool_args_accumulation
    (m : List ToolCallFinal) (i : Nat) (id name args0 ty : String)
    (pre post : List ToolCallChunk)
    (m2 : List ToolCallFinal) (j : Nat) (a2 t2 : String)
    (_hm : lookupIdx m i = none)
    (_hpre : ∀ c ∈ pre, isInitFor i c = false)
    (hpost : ∀ c ∈ post, isInitFor i c = false)
    (hm2 : lookupIdx m2 j = none) :
    lookupIdx (applyChunks m (pre ++ ToolCallChunk.Init id i name args0 ty :: post)) i
      = some { id := id, index := i, name := name,
               arguments := args0 ++ concatTexts (post.filterMap (argsFor i)), type := ty }
    ∧ applyChunk m2 (ToolCallChunk.ArgsDelta j a2 t2) = m2 := by
  constructor
  · have hsplit : applyChunks m (pre ++ ToolCallChunk.Init id i name args0 ty :: post)
        = applyChunks
            (applyChunk (applyChunks m pre) (ToolCallChunk.Init id i name args0 ty)) post := by
      simp [applyChunks, List.foldl_append]
    rw [hsplit]
    have hinit := lookupIdx_applyChunk_init (applyChunks m pre) id i name args0 ty
    exact lookupIdx_applyChunks_track i post _ _ hinit hpost
  · show mapModify m2 j _ = m2
    exact mapModify_not_mem m2 j _ hm2

/-- Witness for `tool_args_accumulation`: index 0 is initialised with fragment
`q1` after a ghost `ArgsDelta` and amid sub-deltas for index 1, then extended
with `q2`; its accumulated arguments are `q1q2`, and an `ArgsDelta` for the
unbound index 5 leaves the empty map unchanged. -/
theorem tool_args_accumulation_witness :
    lookupIdx [] 0 = none
  ∧ (∀ c ∈ [ToolCallChunk.ArgsDelta 0 "ghost" "function",
            ToolCallChunk.Init "call_b" 1 "other" "x" "function"], isInitFor 0 c = false)
  ∧ (∀ c ∈ [ToolCallChunk.ArgsDelta 1 "y" "function",
            ToolCallChunk.ArgsDelta 0 "q2" "function"], isInitFor 0 c = false)
  ∧ (lookupIdx (applyChunks []
        ([ToolCallChunk.ArgsDelta 0 "ghost" "function",
          ToolCallChunk.Init "call_b" 1 "other" "x" "function"]
          ++ ToolCallChunk.Init "call_a" 0 "search" "q1" "function"
            :: [ToolCallChunk.ArgsDelta 1 "y" "function",
                ToolCallChunk.ArgsDelta 0 "q2" "function"])) 0
      = some { id := "call_a", index := 0, name := "search",
               arguments := "q1" ++ concatTexts
                 ([ToolCallChunk.ArgsDelta 1 "y" "function",
                   ToolCallChunk.ArgsDelta 0 "q2" "function"].filterMap (argsFor 0)),
               type := "function" }
    ∧ applyChunk [] (ToolCallChunk.ArgsDelta 5 "z" "function") = []) :=
  ⟨rfl, by decide, by decide,
   tool_args_accumulation [] 0 "call_a" "search" "q1" "function"
     [ToolCallChunk.ArgsDelta 0 "ghost" "function",
      ToolCallChunk.Init "call_b" 1 "other" "x" "function"]
     [ToolCallChunk.ArgsDelta 1 "y" "function",
      ToolCallChunk.ArgsDelta 0 "q2" "function"]
     [] 5 "z" "function" rfl (by decide) (by decide) rfl⟩

/-- Helper: a well-formed request naming a registered capability whose
invocation succeeds dispatches to exactly the echo/response pair the spec
prescribes. -/
theorem handle_tool_call_ok (tools : List Capability) (r : ToolCallValue)
    (hid : r.id.isSome = true) (hinv : (invokeResult tools r).isSome = true) :
    handle_tool_call tools r = Except.ok (specEchoResponsePair tools r) := by
  rcases r with ⟨id?, name?, args?⟩
  cases id? with
  | none => simp at hid
  | some id =>
    cases name? with
    | none => cases args? <;> simp [invokeResult] at hinv
    | some name =>
      cases args? with
      | none => simp [invokeResult] at hinv
      | some args =>
        cases hfind : tools.find? (fun t => t.name == name) with
        | none => simp [invokeResult, hfind] at hinv
        | some cap =>
          cases hcall : cap.call args with
          | error e => simp [invokeResult, hfind, hcall, Except.toOption] at hinv
          | ok res =>
            simp [handle_tool_call, hfind, hcall, specEchoResponsePair, invokeResult,
              Except.toOption]

/-- Helper: when every request dispatches successfully, `try_join_all`
returns all pair lists in input order. -/
theorem tryJoinAll_ok (tools : List Capability) :
    ∀ (reqs : List ToolCallValue),
      (∀ r ∈ reqs, handle_tool_call tools r = Except.ok (specEchoResponsePair tools r)) →
      tryJoinAll tools reqs = Except.ok (reqs.map (specEchoResponsePair tools))
  | [], _ => rfl
  | r :: rs, h => by
      have hr := h r (List.mem_cons_self r rs)
      have ih := tryJoinAll_ok tools rs (fun x hx => h x (List.mem_cons_of_mem r hx))
      simp [tryJoinAll, hr, ih]

/-- Helper: flattening one echo/response pair per request yields twice as many
messages as requests. -/
theorem flatten_pairs_length (tools : List Capability) :
    ∀ (reqs : List ToolCallValue),
      ((reqs.map (specEchoResponsePair tools)).flatten).length = 2 * reqs.length
  | [] => rfl
  | r :: rs => by
      simp [specEchoResponsePair, flatten_pairs_length tools rs]
      omega

/-- C6: dispatching K well-formed requests, each naming a registered
capability whose invocation succeeds, returns exactly 2K messages: for each
request in input-list order, the assistant request-echo carrying the original
id, name and arguments as a `tool_calls` entry, immediately followed by the
tool response carrying the invocation result and the same id.  The source runs
the invocations concurrently via `try_join_all`, whose output order is the
input order regardless of completion order; invocations are pure in the model,
so completion order does not arise and the input-order guarantee is what
remains. -/
theorem dispatcher_pairs (tools : List Capability) (reqs : List ToolCallValue)
    (h : ∀ r ∈ reqs, r.id.isSome = true ∧ (invokeResult tools r).isSome = true) :
    handle_tool_calls tools reqs
        = Except.ok ((reqs.map (specEchoResponsePair tools)).flatten)
    ∧ ((reqs.map (specEchoResponsePair tools)).flatten).length = 2 * reqs.length := by
  constructor
  · have hall : ∀ r ∈ reqs, handle_tool_call tools r = Except.ok (specEchoResponsePair tools r) :=
      fun r hr => handle_tool_call_ok tools r (h r hr).1 (h r hr).2
    simp [handle_tool_calls, tryJoinAll_ok tools reqs hall]
  · exact flatten_pairs_length tools reqs

/-- Witness for `dispatcher_pairs`: two well-formed requests for the
registered `mock_tool` yield two echo/response pairs, four messages, in input
order. -/
theorem dispatcher_pairs_witness :
    (∀ r ∈ [demoReq1, demoReq2],
        r.id.isSome = true ∧ (invokeResult demoTools r).isSome = true)
  ∧ (handle_tool_calls demoTools [demoReq1, demoReq2]
        = Except.ok (([demoReq1, demoReq2].map (specEchoResponsePair demoTools)).flatten)
    ∧ (([demoReq1, demoReq2].map (specEchoResponsePair demoTools)).flatten).length
        = 2 * [demoReq1, demoReq2].length) :=
  ⟨by decide, dispatcher_pairs demoTools [demoReq1, demoReq2] (by decide)⟩

/-- Helper: a bad request makes its own dispatch fail. -/
theorem handle_tool_call_error (tools : List Capability) (r : ToolCallValue)
    (h : badRequest tools r) : ∃ e, handle_tool_call tools r = Except.error e := by
  rcases r with ⟨id?, name?, args?⟩
  cases id? with
  | none => exact ⟨"Tool call missing ID", rfl⟩
  | some id =>
    cases args? with
    | none => exact ⟨"Tool call missing arguments", rfl⟩
    | some args =>
      cases name? with
      | none => exact ⟨"Tool call missing name", rfl⟩
      | some name =>
        rcases h with h | h | h | ⟨name2, hname2, hfind⟩ |
          ⟨name2, args2, cap, e, hname2, hargs2, hfind, hcall⟩
        · simp at h
        · simp at h
        · simp at h
        · have hn : name = name2 := by simpa using hname2
          subst hn
          exact ⟨"Received tool call that doesn't exist: " ++ name,
            by simp [handle_tool_call, hfind]⟩
        · have hn : name = name2 := by simpa using hname2
          subst hn
          have ha : args = args2 := by simpa using hargs2
          subst ha
          exact ⟨e, by simp [handle_tool_call, hfind, hcall]⟩

/-- Helper: one failing request fails the whole `try_join_all` batch. -/
theorem tryJoinAll_error (tools : List Capability) :
    ∀ (reqs : List ToolCallValue) (r : ToolCallValue), r ∈ reqs →
      (∃ e, handle_tool_call tools r = Except.error e) →
      ∃ e, tryJoinAll tools reqs = Except.error e
  | [], r, hr, _ => absurd hr (List.not_mem_nil r)
  | q :: qs, r, hr, ⟨e, he⟩ => by
      cases hq : handle_tool_call tools q with
      | error e2 => exact ⟨e2, by simp [tryJoinAll, hq]⟩
      | ok msgs =>
        have hrq : r ∈ qs := by
          rcases List.mem_cons.mp hr with h1 | h1
          · subst h1
            rw [he] at hq
            cases hq
          · exact h1
        rcases tryJoinAll_error tools qs r hrq ⟨e, he⟩ with ⟨e3, he3⟩
        exact ⟨e3, by simp [tryJoinAll, hq, he3]⟩

/-- C7: a batch containing any request that is missing its id, name or
arguments, names an unregistered capability, or whose invocation fails, makes
the dispatcher return a failure — an `Except.error` carrying no messages, so
no partial results are produced for the other requests. -/
theorem dispatcher_batch_failure (tools : List Capability) (reqs : List ToolCallValue)
    (h : ∃ r ∈ reqs, badRequest tools r) :
    ∃ e, handle_tool_calls tools reqs = Except.error e := by
  rcases h with ⟨r, hr, hbad⟩
  rcases tryJoinAll_error tools reqs r hr (handle_tool_call_error tools r hbad) with ⟨e, he⟩
  exact ⟨e, by simp [handle_tool_calls, he]⟩

/-- Witness for `dispatcher_batch_failure`: a batch whose second request names
the unregistered `missing_tool` fails as a whole, though its first request is
well formed. -/
theorem dispatcher_batch_failure_witness :
    (∃ r ∈ [demoReq1, demoBadReq], badRequest demoTools r)
  ∧ (∃ e, handle_tool_calls demoTools [demoReq1, demoBadReq] = Except.error e) :=
  ⟨⟨demoBadReq, by decide, Or.inr (Or.inr (Or.inr (Or.inl ⟨"missing_tool", rfl, rfl⟩)))⟩,
   dispatcher_batch_failure demoTools [demoReq1, demoBadReq]
     ⟨demoBadReq, by decide, Or.inr (Or.inr (Or.inr (Or.inl ⟨"missing_tool", rfl, rfl⟩)))⟩⟩

/-- C9: every `Message` constructor leaves at most one of `content` and
`tool_calls` present — `new` and `new_tool_call_response` leave `tool_calls`
absent, `new_tool_call_request` leaves `content` absent, and no constructor
sets both. -/
theorem message_constructor_exclusivity :
    (∀ (role : Role) (c : String), (Message.new role c).content = some c
        ∧ (Message.new role c).tool_calls = none)
  ∧ (∀ (tcs : List FunctionCall), (Message.new_tool_call_request tcs).tool_calls = some tcs
        ∧ (Message.new_tool_call_request tcs).content = none)
  ∧ (∀ (c id : String), (Message.new_tool_call_response c id).content = some c
        ∧ (Message.new_tool_call_response c id).tool_call_id = some id
        ∧ (Message.new_tool_call_response c id).tool_calls = none)
  ∧ (∀ (role : Role) (c : String),
        ¬ ((Message.new role c).content.isSome = true
            ∧ (Message.new role c).tool_calls.isSome = true))
  ∧ (∀ (tcs : List FunctionCall),
        ¬ ((Message.new_tool_call_request tcs).content.isSome = true
            ∧ (Message.new_tool_call_request tcs).tool_calls.isSome = true))
  ∧ (∀ (c id : String),
        ¬ ((Message.new_tool_call_response c id).content.isSome = true
            ∧ (Message.new_tool_call_response c id).tool_calls.isSome = true)) := by
  refine ⟨?_, ?_, ?_, ?_, ?_, ?_⟩ <;> intros <;>
    simp [Message.new, Message.new_tool_call_request, Message.new_tool_call_response]

/-- Counterexample to C8 as stated: a response with non-success status 500
whose body parses as JSON is returned as a success — the status code is never
checked. -/
theorem completion_ok_on_error_status :
    completion (HttpOutcome.response 500
        (Except.ok { content := some "error body", tool_calls := none }))
      = Except.ok { content := some "error body", tool_calls := none }
  ∧ (completion (HttpOutcome.response 500
        (Except.ok { content := some "error body", tool_calls := none }))).isOk = true :=
  ⟨rfl, rfl⟩

/-- C8 (amended): a transport failure and a body-parse failure are propagated
as-is with no internal retry, but the HTTP status code is never inspected —
the outcome of `completion` is independent of the status, so a non-success
status with a JSON-parseable body yields a success carrying that body. -/
theorem completion_error_propagation :
    (∀ (e : String), completion (HttpOutcome.transportFailure e) = Except.error e)
  ∧ (∀ (s : Nat) (e : String),
        completion (HttpOutcome.response s (Except.error e)) = Except.error e)
  ∧ (∀ (s s2 : Nat) (body : Except String Resp),
        completion (HttpOutcome.response s body) = completion (HttpOutcome.response s2 body)) :=
  ⟨fun _ => rfl, fun _ _ => rfl, fun _ _ _ => rfl⟩

/-- C5: `Chat::chat` (src/ai/chat/core.rs) maps a tool-free buffered response
with content to exactly one assistant message carrying that content, for any
capability configuration including none; but the copy of the loop in
src/openai/chat.rs evaluates the `expect` on the capability set before
entering the tool-call loop, so with no capability set configured it panics on
the very same tool-free responses instead of succeeding. -/
theorem chat_tool_free_response :
    (∀ (tools : Option (List Capability)) (hist : List Message) (c : String)
        (rest : List (Except String Resp)),
        Chat.chat tools (Except.ok { content := some c, tool_calls := none } :: rest) hist
          = Except.ok [Message.new Role.Assistant c])
  ∧ (∀ (tools : Option (List Capability)) (hist : List Message) (c : String)
        (rest : List (Except String Resp)),
        Chat.chat tools (Except.ok { content := some c, tool_calls := some [] } :: rest) hist
          = Except.ok [Message.new Role.Assistant c])
  ∧ (∀ (hist : List Message) (c : String) (rest : List (Except String Resp)),
        Openai.chat none (Except.ok { content := some c, tool_calls := none } :: rest) hist
          = Except.error "panic: Received tool call but no tools were specified")
  ∧ (∀ (hist : List Message) (c : String) (rest : List (Except String Resp)),
        Openai.chat none (Except.ok { content := some c, tool_calls := some [] } :: rest) hist
          = Except.error "panic: Received tool call but no tools were specified") := by
  refine ⟨?_, ?_, ?_, ?_⟩
  · intro tools hist c rest
    exact chatTurns_finish false tools [] _ rest _ rfl
  · intro tools hist c rest
    exact chatTurns_finish false tools [] _ rest _ rfl
  · intro hist c rest
    rfl
  · intro hist c rest
    rfl

end HQ
